import Mathlib

/-!
Verification development for `daily_notes_generator.py`: a shallow embedding
of the note-scanning, todo-aggregation and note-generation pipeline, with
theorems checking the specification's claims against it.

The filesystem is modelled as an association list from filenames to optional
contents (`none` models a file whose bytes cannot be read or UTF-8 decoded).
Python `datetime.date` values are modelled by year/month/day triples; Python
orders dates by their proleptic Gregorian ordinal (`date.toordinal`), and
`d - timedelta(days = n)` is the date whose ordinal is `n` less, so date
comparisons and the 7-day-window arithmetic are carried out on ordinals.
-/

namespace DailyNotes

/-- Model of `datetime.date`: a year/month/day triple. -/
structure PyDate where
  year : Nat
  month : Nat
  day : Nat
deriving DecidableEq

/-- Gregorian leap-year test, as in `calendar.isleap` / `datetime`. -/
def isLeap (y : Nat) : Bool :=
  y % 4 == 0 && (y % 100 != 0 || y % 400 == 0)

/-- Number of days in month `m` of year `y` (months numbered 1..12). -/
def daysInMonth (y m : Nat) : Nat :=
  if m = 2 then (if isLeap y then 29 else 28)
  else if m = 4 ∨ m = 6 ∨ m = 9 ∨ m = 11 then 30
  else 31

/-- Days in all years strictly before year `y` (proleptic Gregorian),
as in CPython's `_days_before_year`. -/
def daysBeforeYear (y : Nat) : Nat :=
  (y - 1) * 365 + (y - 1) / 4 - (y - 1) / 100 + (y - 1) / 400

/-- Days in year `y` strictly before month `m`, as in CPython's
`_days_before_month` (cumulative month table plus leap adjustment). -/
def daysBeforeMonth (y m : Nat) : Nat :=
  (match m with
   | 1 => 0 | 2 => 31 | 3 => 59 | 4 => 90 | 5 => 120 | 6 => 151
   | 7 => 181 | 8 => 212 | 9 => 243 | 10 => 273 | 11 => 304 | 12 => 334
   | _ => 0)
  + (if 2 < m ∧ isLeap y then 1 else 0)

/-- Model of `date.toordinal`: day number in the proleptic Gregorian
calendar, with 0001-01-01 having ordinal 1. Python dates are totally
ordered by this ordinal, and `timedelta` arithmetic acts on it. -/
def PyDate.toordinal (d : PyDate) : Int :=
  ((daysBeforeYear d.year + daysBeforeMonth d.year d.month + d.day : Nat) : Int)

/-- Numeric value of an ASCII digit character. -/
def digitVal (c : Char) : Nat := c.toNat - 48

/-- ASCII digit character for `n % 10`. -/
def digitChar (n : Nat) : Char := Char.ofNat (48 + n % 10)

/-- Decimal rendering of `n` without padding, for `n ≤ 9999` (the year
range of Python dates); models the unpadded `%Y` of `strftime`. -/
def natToChars (n : Nat) : List Char :=
  if n < 10 then [digitChar n]
  else if n < 100 then [digitChar (n / 10), digitChar n]
  else if n < 1000 then [digitChar (n / 100), digitChar (n / 10), digitChar n]
  else [digitChar (n / 1000), digitChar (n / 100), digitChar (n / 10), digitChar n]

/-- Two-digit zero-padded rendering, as `strftime` `%m` / `%d`. -/
def pad2 (n : Nat) : List Char :=
  if n < 10 then ['0', digitChar n] else natToChars n

/-- Model of `date.strftime("%Y-%m-%d")` (the module's `DATE_FMT`). -/
def formatDate (d : PyDate) : String :=
  String.mk (natToChars d.year ++ '-' :: pad2 d.month ++ '-' :: pad2 d.day)

/-- Month token of `strptime` `%m`: regex `1[0-2]|0[1-9]|[1-9]` applied to a
two-character token (the one-character alternative is handled separately by
the stem parser, exactly as the regex alternation resolves against the
literal `-` that follows). -/
def monthVal2 (a b : Char) : Option Nat :=
  if a = '1' then (if '0' ≤ b ∧ b ≤ '2' then some (10 + digitVal b) else none)
  else if a = '0' then (if '1' ≤ b ∧ b ≤ '9' then some (digitVal b) else none)
  else none

/-- Day token of `strptime` `%d`: regex `3[0-1]|[1-2]\d|0[1-9]|[1-9]| [1-9]`,
which must consume the whole remaining stem (CPython rejects the stem when
unconverted data remains). -/
def dayToken : List Char → Option Nat
  | [a] => if '1' ≤ a ∧ a ≤ '9' then some (digitVal a) else none
  | [a, b] =>
    if a = '3' then (if b = '0' ∨ b = '1' then some (30 + digitVal b) else none)
    else if a = '1' ∨ a = '2' then
      (if b.isDigit then some (digitVal a * 10 + digitVal b) else none)
    else if a = '0' ∨ a = ' ' then
      (if '1' ≤ b ∧ b ≤ '9' then some (digitVal b) else none)
    else none
  | _ => none

/-- Month-then-day part of the stem, after `YYYY-`: a one- or two-character
month token, a literal `-`, then the day token consuming the rest. -/
def parseMD : List Char → Option (Nat × Nat)
  | m1 :: m2 :: '-' :: ds =>
    match monthVal2 m1 m2 with
    | some m => (dayToken ds).map (fun d => (m, d))
    | none => none
  | m1 :: '-' :: ds =>
    if '1' ≤ m1 ∧ m1 ≤ '9' then (dayToken ds).map (fun d => (digitVal m1, d))
    else none
  | _ => none

/-- Model of `datetime.strptime(stem, "%Y-%m-%d").date()`: exactly four
digits of year, `-`, the `%m` token, `-`, the `%d` token consuming the rest;
then the `datetime` constructor validates the calendar date (year ≥ 1, day
within the month). On failure (`ValueError` in Python) the result is `none`. -/
def parseDateChars : List Char → Option PyDate
  | y1 :: y2 :: y3 :: y4 :: '-' :: rest =>
    if y1.isDigit && y2.isDigit && y3.isDigit && y4.isDigit then
      match parseMD rest with
      | some (m, d) =>
        let y := digitVal y1 * 1000 + digitVal y2 * 100 + digitVal y3 * 10 + digitVal y4
        if 1 ≤ y ∧ d ≤ daysInMonth y m then some ⟨y, m, d⟩ else none
      | none => none
    else none
  | _ => none

/-- Stem parsing on strings. -/
def parseDateStem (s : String) : Option PyDate := parseDateChars s.data

/-- Parse function following the specification's words for `scan` ("exact
format: 4-digit year, 2-digit month, 2-digit day, hyphen-separated"); used
to compare the specified filter with the one the source implements. -/
def specExactParse (s : String) : Option PyDate :=
  match s.data with
  | [y1, y2, y3, y4, '-', m1, m2, '-', d1, d2] =>
    if y1.isDigit && y2.isDigit && y3.isDigit && y4.isDigit
        && m1.isDigit && m2.isDigit && d1.isDigit && d2.isDigit then
      let y := digitVal y1 * 1000 + digitVal y2 * 100 + digitVal y3 * 10 + digitVal y4
      let m := digitVal m1 * 10 + digitVal m2
      let d := digitVal d1 * 10 + digitVal d2
      if 1 ≤ y ∧ 1 ≤ m ∧ m ≤ 12 ∧ 1 ≤ d ∧ d ≤ daysInMonth y m then some ⟨y, m, d⟩
      else none
    else none
  | _ => none

/-! ### Filesystem model and the note index -/

/-- A directory: an association list from filenames to contents, where
`none` models a file whose bytes cannot be read or UTF-8 decoded. -/
abbrev FS := List (String × Option String)

/-- Reading a file: `none` when no such name exists, `some none` when the
file exists but reading/decoding it fails. -/
def readFile (fs : FS) (name : String) : Option (Option String) :=
  (fs.find? (fun e => decide (e.1 = name))).map (fun e => e.2)

/-- Model of `Path.exists` for the directory. -/
def fileExists (fs : FS) (name : String) : Bool :=
  (readFile fs name).isSome

/-- Does the filename end in the `.md` extension (the `*.md` glob)? -/
def isMdName (name : String) : Bool :=
  decide (name.data.reverse.take 3 = ['d', 'm', '.'])

/-- Model of `Path.stem` for a `.md` filename: the name minus the last
three characters (".md"). -/
def mdStem (name : String) : String :=
  String.mk (name.data.take (name.data.length - 3))

/-- One directory entry as `get_all_notes` treats it: keep `.md` files
whose stem parses as a date, as a `(date, filename)` pair. -/
def parseEntry (e : String × Option String) : Option (PyDate × String) :=
  if isMdName e.1 then (parseDateStem (mdStem e.1)).map (fun dt => (dt, e.1)) else none

/-- Lexicographic order on character lists: Python's string comparison,
used to break ties when sorting `(date, path)` tuples. -/
def charsLe : List Char → List Char → Bool
  | [], _ => true
  | _ :: _, [] => false
  | a :: as, b :: bs => if a = b then charsLe as bs else decide (a < b)

/-- Comparison of the `(date, path)` tuples sorted by `notes.sort()`:
by date (via ordinal), then by filename. -/
def noteLe (x y : PyDate × String) : Bool :=
  decide (x.1.toordinal < y.1.toordinal)
    || (decide (x.1.toordinal = y.1.toordinal) && charsLe x.2.data y.2.data)

/-- Ordered insertion for the sort model. -/
def insertLe {α : Type} (le : α → α → Bool) (a : α) : List α → List α
  | [] => [a]
  | b :: l => if le a b then a :: b :: l else b :: insertLe le a l

/-- Insertion sort modelling `list.sort()` (a stable comparison sort; the
claims depend only on the resulting order, not the algorithm). -/
def sortLe {α : Type} (le : α → α → Bool) : List α → List α
  | [] => []
  | a :: l => insertLe le a (sortLe le l)

/-- Model of `get_all_notes`: every `.md` entry whose stem parses as a date
becomes a `(date, filename)` pair; unparsable names are skipped; the result
is sorted ascending as `(date, path)` tuples. -/
def get_all_notes (fs : FS) : List (PyDate × String) :=
  sortLe noteLe (fs.filterMap parseEntry)

/-! ### Todo extraction -/

/-- Characters `str.splitlines` treats as line boundaries. -/
def lineBreakChar (c : Char) : Bool :=
  c = '\n' || c = '\r' || c = '\x0b' || c = '\x0c' ||
  c = '\x1c' || c = '\x1d' || c = '\x1e' || c = '\x85' ||
  c = '\u2028' || c = '\u2029'

/-- Worker for `str.splitlines`: `acc` holds the current line reversed, and
the flag records that the previous character was `\r`, so that a following
`\n` is swallowed (`\r\n` counts as a single boundary). A trailing
unterminated line is kept; a trailing terminator adds no empty line. -/
def splitlinesAux : List Char → List Char → Bool → List String
  | [], acc, _ => if acc.isEmpty then [] else [String.mk acc.reverse]
  | c :: rest, acc, afterCR =>
    if afterCR && c = '\n' then splitlinesAux rest acc false
    else if c = '\r' then String.mk acc.reverse :: splitlinesAux rest [] true
    else if lineBreakChar c then String.mk acc.reverse :: splitlinesAux rest [] false
    else splitlinesAux rest (c :: acc) false

/-- Model of `str.splitlines()`. -/
def pySplitlines (s : String) : List String := splitlinesAux s.data [] false

/-- Model of `TODO_PATTERN.match(line)` for `^- \[ \] (.+)`: the line must
start with the literal `- [ ] ` (no leading-whitespace tolerance) followed
by at least one character; the captured suffix is returned verbatim. -/
def matchTodoLine (line : String) : Option String :=
  match line.data with
  | c1 :: c2 :: c3 :: c4 :: c5 :: c6 :: rest =>
    if c1 = '-' ∧ c2 = ' ' ∧ c3 = '[' ∧ c4 = ' ' ∧ c5 = ']' ∧ c6 = ' ' ∧ rest ≠ [] then
      some (String.mk rest)
    else none
  | _ => none

/-- The captured todo texts of a note's text, in file order. -/
def extractFromText (text : String) : List String :=
  (pySplitlines text).filterMap matchTodoLine

/-- A failure to read or UTF-8 decode a note file (`OSError` or
`UnicodeDecodeError` propagating out of `read_text`). -/
inductive ReadError where
  | notFound
  | decodeFailed
deriving DecidableEq

deriving instance DecidableEq for Except

/-- Model of `extract_undone_todos`: read the note's text and return the
captured todo texts in file order; a read/decode failure propagates. -/
def extract_undone_todos (fs : FS) (name : String) : Except ReadError (List String) :=
  match readFile fs name with
  | none => .error .notFound
  | some none => .error .decodeFailed
  | some (some text) => .ok (extractFromText text)

/-! ### Aggregation -/

/-- The inner loop of `aggregate_todos` over one note's items: `seen` is
the membership set, `todos` the accumulated deduplicated output. -/
def innerLoop : List String → List String → List String → List String × List String
  | seen, todos, [] => (seen, todos)
  | seen, todos, t :: ts =>
    if t ∈ seen then innerLoop seen todos ts
    else innerLoop (t :: seen) (todos ++ [t]) ts

/-- The outer loop of `aggregate_todos` over the notes. -/
def aggLoop (fs : FS) : List (PyDate × String) → List String → List String →
    Except ReadError (List String)
  | [], _, todos => .ok todos
  | p :: rest, seen, todos =>
    match extract_undone_todos fs p.2 with
    | .error e => .error e
    | .ok items =>
      aggLoop fs rest (innerLoop seen todos items).1 (innerLoop seen todos items).2

/-- Model of `aggregate_todos`: walk the notes in the given order,
extract each one's undone todos, and append each text not seen before. -/
def aggregate_todos (fs : FS) (pastNotes : List (PyDate × String)) :
    Except ReadError (List String) :=
  aggLoop fs pastNotes [] []

/-- Canonical first-occurrence deduplication, used to state what the
`seen`-set loop computes: keep each element's first occurrence, deleting
the later ones. -/
def firstDedup : List String → List String
  | [] => []
  | t :: ts => t :: firstDedup (ts.filter (fun x => decide (x ≠ t)))
termination_by l => l.length
decreasing_by
  simpa using Nat.lt_succ_of_le (List.length_filter_le _ _)

/-! ### Note generation -/

/-- Filename of the note for a date: `strftime(DATE_FMT) + ".md"`. -/
def noteFilename (d : PyDate) : String := formatDate d ++ ".md"

/-- The window filter of `create_daily_note`: `one_week_ago <= d < note_date`
with `one_week_ago = note_date - timedelta(days=7)`; on ordinals this is the
half-open interval `[note_date.toordinal - 7, note_date.toordinal)`. -/
def recentNotes (notes : List (PyDate × String)) (target : PyDate) :
    List (PyDate × String) :=
  notes.filter (fun p =>
    decide (target.toordinal - 7 ≤ p.1.toordinal ∧ p.1.toordinal < target.toordinal))

/-- One rendered unfinished checklist line, `f"- [ ] {t}\n"`. -/
def todoLine (t : String) : String := "- [ ] " ++ t ++ "\n"

/-- Concatenation of rendered lines (the `for t in todos: body += ...` loop). -/
def concatStrings : List String → String
  | [] => ""
  | s :: rest => s ++ concatStrings rest

/-- The Tasks section body: one checklist line per todo, or a single empty
checklist line when there are none. -/
def tasksBlock (todos : List String) : String :=
  if todos.isEmpty then "- [ ] \n" else concatStrings (todos.map todoLine)

/-- The full generated note body, exactly as `create_daily_note` builds it. -/
def renderBody (d : PyDate) (todos : List String) : String :=
  "# " ++ formatDate d ++ "\n\n" ++ "## Tasks\n" ++ tasksBlock todos ++ "\n"
    ++ "## Notes\n- \n"

/-- The individual lines of the rendered Tasks section (one per aggregated
todo, or the single empty checklist line); used to state what
`pySplitlines` returns on a rendered body. -/
def taskLines (todos : List String) : List String :=
  if todos.isEmpty then ["- [ ] "] else todos.map (fun t => "- [ ] " ++ t)

/-- A todo text that renders onto a single line: nonempty and free of
line-boundary characters. -/
def safeTodo (t : String) : Prop :=
  t ≠ "" ∧ ∀ c ∈ t.data, lineBreakChar c = false

instance : DecidablePred safeTodo := fun t =>
  inferInstanceAs (Decidable (t ≠ "" ∧ ∀ c ∈ t.data, lineBreakChar c = false))

/-- Model of `create_daily_note`. The first component of the result models
the Python return value: the function returns `None` on every path (here
`none`), never a boolean. The second component is the directory after the
call. A `ReadError` raised while aggregating propagates and nothing is
written. -/
def create_daily_note (fs : FS) (note_date : PyDate) :
    Except ReadError (Option Bool × FS) :=
  if fileExists fs (noteFilename note_date) then .ok (none, fs)
  else
    match aggregate_todos fs (recentNotes (get_all_notes fs) note_date) with
    | .error e => .error e
    | .ok todos =>
      .ok (none, fs ++ [(noteFilename note_date, some (renderBody note_date todos))])

end DailyNotes

namespace DailyNotes

/-! ### Lemmas about the sort model -/

theorem insertLe_perm {α : Type} (le : α → α → Bool) (a : α) (l : List α) :
    (insertLe le a l).Perm (a :: l) := by
  induction l with
  | nil => exact .refl _
  | cons b l ih =>
    by_cases h : le a b = true
    · simp [insertLe, h]
    · simp only [insertLe, h, if_false]
      exact (ih.cons b).trans (List.Perm.swap a b l)

theorem sortLe_perm {α : Type} (le : α → α → Bool) (l : List α) :
    (sortLe le l).Perm l := by
  induction l with
  | nil => exact .refl _
  | cons a l ih => exact (insertLe_perm le a (sortLe le l)).trans (ih.cons a)

theorem mem_insertLe {α : Type} {le : α → α → Bool} {a x : α} {l : List α} :
    x ∈ insertLe le a l ↔ x = a ∨ x ∈ l := by
  rw [(insertLe_perm le a l).mem_iff, List.mem_cons]

theorem mem_sortLe {α : Type} {le : α → α → Bool} {x : α} {l : List α} :
    x ∈ sortLe le l ↔ x ∈ l :=
  (sortLe_perm le l).mem_iff

theorem insertLe_pairwise {α : Type} {le : α → α → Bool}
    (htr : ∀ a b c, le a b = true → le b c = true → le a c = true)
    (htot : ∀ a b, le a b = true ∨ le b a = true)
    (a : α) {l : List α} (hl : l.Pairwise (fun x y => le x y = true)) :
    (insertLe le a l).Pairwise (fun x y => le x y = true) := by
  induction l with
  | nil => simp [insertLe]
  | cons b l ih =>
    rcases List.pairwise_cons.mp hl with ⟨hb, hl2⟩
    by_cases h : le a b = true
    · simp only [insertLe, h, if_true]
      refine List.pairwise_cons.mpr ⟨?_, hl⟩
      intro y hy
      rcases List.mem_cons.mp hy with rfl | hy2
      · exact h
      · exact htr a b y h (hb y hy2)
    · have hba : le b a = true := (htot a b).resolve_left h
      simp only [insertLe, h, if_false]
      refine List.pairwise_cons.mpr ⟨?_, ih hl2⟩
      intro y hy
      rcases mem_insertLe.mp hy with rfl | hy2
      · exact hba
      · exact hb y hy2

theorem sortLe_pairwise {α : Type} {le : α → α → Bool}
    (htr : ∀ a b c, le a b = true → le b c = true → le a c = true)
    (htot : ∀ a b, le a b = true ∨ le b a = true) (l : List α) :
    (sortLe le l).Pairwise (fun x y => le x y = true) := by
  induction l with
  | nil => simp [sortLe]
  | cons a l ih => exact insertLe_pairwise htr htot a ih

theorem charsLe_total : ∀ as bs, charsLe as bs = true ∨ charsLe bs as = true := by
  intro as
  induction as with
  | nil => intro bs; left; cases bs <;> rfl
  | cons a as ih =>
    intro bs
    cases bs with
    | nil => right; rfl
    | cons b bs =>
      by_cases hab : a = b
      · subst hab
        rcases ih bs with h | h
        · left; simp only [charsLe, if_pos rfl]; exact h
        · right; simp only [charsLe, if_pos rfl]; exact h
      · rcases lt_trichotomy a b with h | h | h
        · left; simp [charsLe, hab, h]
        · exact absurd h hab
        · right; simp [charsLe, Ne.symm hab, h]

theorem charsLe_trans :
    ∀ as bs cs, charsLe as bs = true → charsLe bs cs = true → charsLe as cs = true := by
  intro as
  induction as with
  | nil => intro bs cs _ _; cases cs <;> rfl
  | cons a as ih =>
    intro bs cs h1 h2
    cases bs with
    | nil => simp [charsLe] at h1
    | cons b bs =>
      cases cs with
      | nil => simp [charsLe] at h2
      | cons c cs =>
        by_cases hab : a = b <;> by_cases hbc : b = c
        · subst hab; subst hbc
          simp only [charsLe, if_pos rfl] at h1 h2 ⊢
          exact ih bs cs h1 h2
        · subst hab
          simp only [charsLe, if_pos rfl] at h1
          simp only [charsLe, if_neg hbc] at h2
          have hlt : a < c := of_decide_eq_true h2
          simp [charsLe, ne_of_lt hlt, hlt]
        · subst hbc
          simp only [charsLe, if_neg hab] at h1
          have hlt : a < b := of_decide_eq_true h1
          simp [charsLe, ne_of_lt hlt, hlt]
        · simp only [charsLe, if_neg hab] at h1
          simp only [charsLe, if_neg hbc] at h2
          have hlt : a < c := lt_trans (of_decide_eq_true h1) (of_decide_eq_true h2)
          simp [charsLe, ne_of_lt hlt, hlt]

theorem noteLe_total : ∀ x y, noteLe x y = true ∨ noteLe y x = true := by
  intro x y
  rcases lt_trichotomy x.1.toordinal y.1.toordinal with h | h | h
  · left; simp [noteLe, h]
  · rcases charsLe_total x.2.data y.2.data with hc | hc
    · left; simp [noteLe, h, hc]
    · right; simp [noteLe, h.symm, hc]
  · right; simp [noteLe, h]

theorem noteLe_trans :
    ∀ x y z, noteLe x y = true → noteLe y z = true → noteLe x z = true := by
  intro x y z h1 h2
  simp only [noteLe, Bool.or_eq_true, Bool.and_eq_true, decide_eq_true_eq] at h1 h2 ⊢
  rcases h1 with h1 | ⟨h1e, h1c⟩
  · rcases h2 with h2 | ⟨h2e, _⟩
    · exact Or.inl (lt_trans h1 h2)
    · exact Or.inl (lt_of_lt_of_le h1 (le_of_eq h2e))
  · rcases h2 with h2 | ⟨h2e, h2c⟩
    · exact Or.inl (lt_of_le_of_lt (le_of_eq h1e) h2)
    · exact Or.inr ⟨h1e.trans h2e, charsLe_trans _ _ _ h1c h2c⟩

theorem noteLe_ord {x y : PyDate × String} (h : noteLe x y = true) :
    x.1.toordinal ≤ y.1.toordinal := by
  simp only [noteLe, Bool.or_eq_true, Bool.and_eq_true, decide_eq_true_eq] at h
  rcases h with h | ⟨h, _⟩
  · exact le_of_lt h
  · exact le_of_eq h

/-! ### Lemmas about the filesystem model and the scan -/

theorem readFile_append_self {fs : FS} {name : String} {c : Option String}
    (h : readFile fs name = none) : readFile (fs ++ [(name, c)]) name = some c := by
  have hf : fs.find? (fun e => decide (e.1 = name)) = none := by
    unfold readFile at h
    exact Option.map_eq_none'.mp h
  unfold readFile
  rw [List.find?_append, hf]
  simp [List.find?]

theorem mem_get_all_notes {fs : FS} {p : PyDate × String} :
    p ∈ get_all_notes fs ↔ ∃ e ∈ fs, parseEntry e = some p := by
  unfold get_all_notes
  rw [mem_sortLe]
  exact List.mem_filterMap

theorem parseEntry_eq_some {e : String × Option String} {p : PyDate × String} :
    parseEntry e = some p ↔
      isMdName e.1 = true ∧ parseDateStem (mdStem e.1) = some p.1 ∧ p.2 = e.1 := by
  unfold parseEntry
  by_cases h : isMdName e.1 = true
  · simp only [h, if_true, Option.map_eq_some', true_and]
    constructor
    · rintro ⟨d, hd, hp⟩
      cases p
      cases hp
      exact ⟨hd, rfl⟩
    · rintro ⟨h1, h2⟩
      refine ⟨p.1, h1, ?_⟩
      cases p
      simp only at h2
      rw [h2]
  · simp [h]

theorem get_all_notes_sorted (fs : FS) :
    (get_all_notes fs).Pairwise (fun a b => a.1.toordinal ≤ b.1.toordinal) := by
  have hp := sortLe_pairwise noteLe_trans noteLe_total (fs.filterMap parseEntry)
  exact (hp.imp fun h => noteLe_ord h)

/-! ### Lemmas about aggregation -/

theorem firstDedup_nil : firstDedup [] = [] := by
  rw [firstDedup.eq_def]

theorem firstDedup_cons (t : String) (ts : List String) :
    firstDedup (t :: ts) = t :: firstDedup (ts.filter (fun x => decide (x ≠ t))) := by
  rw [firstDedup.eq_def]

theorem mem_firstDedup : ∀ (l : List String) (x : String), x ∈ firstDedup l ↔ x ∈ l := by
  intro l
  induction l using firstDedup.induct with
  | case1 => intro x; simp [firstDedup_nil]
  | case2 t ts ih =>
    intro x
    by_cases hxt : x = t
    · subst hxt
      simp [firstDedup_cons]
    · rw [firstDedup_cons, List.mem_cons, ih x, List.mem_filter]
      simp [hxt]

theorem nodup_firstDedup : ∀ l : List String, (firstDedup l).Nodup := by
  intro l
  induction l using firstDedup.induct with
  | case1 => simp [firstDedup_nil]
  | case2 t ts ih =>
    rw [firstDedup_cons]
    refine List.nodup_cons.mpr ⟨?_, ih⟩
    intro hmem
    have := List.mem_filter.mp ((mem_firstDedup _ t).mp hmem)
    simp at this

theorem filter_combine_cons (t : String) (ts b : List String) :
    b.filter (fun a => decide (a ∉ ts.filter (fun x => decide (x ≠ t))) && decide (a ≠ t)) =
      b.filter (fun x => decide (x ∉ t :: ts)) := by
  apply List.filter_congr
  intro x _
  by_cases hxt : x = t
  · subst hxt; simp
  · by_cases hxts : x ∈ ts
    · simp [hxt, hxts, List.mem_filter]
    · simp [hxt, hxts, List.mem_filter]

theorem firstDedup_append : ∀ (a b : List String),
    firstDedup (a ++ b) =
      firstDedup a ++ firstDedup (b.filter (fun x => decide (x ∉ a))) := by
  intro a
  induction a using firstDedup.induct with
  | case1 =>
    intro b
    have hall : b.filter (fun x => decide (x ∉ ([] : List String))) = b := by
      simp
    simp [firstDedup_nil, hall]
  | case2 t ts ih =>
    intro b
    calc firstDedup ((t :: ts) ++ b)
        = t :: firstDedup ((ts ++ b).filter (fun x => decide (x ≠ t))) := by
          rw [List.cons_append, firstDedup_cons]
      _ = t :: firstDedup (ts.filter (fun x => decide (x ≠ t)) ++
            b.filter (fun x => decide (x ≠ t))) := by
          rw [List.filter_append]
      _ = t :: (firstDedup (ts.filter (fun x => decide (x ≠ t))) ++
            firstDedup ((b.filter (fun x => decide (x ≠ t))).filter
              (fun x => decide (x ∉ ts.filter (fun x => decide (x ≠ t)))))) := by
          rw [ih]
      _ = firstDedup (t :: ts) ++
            firstDedup (b.filter (fun x => decide (x ∉ t :: ts))) := by
          rw [firstDedup_cons, List.cons_append, List.filter_filter, filter_combine_cons]

theorem filter_ne_and_not_mem (t : String) (seen b : List String) :
    b.filter (fun a => decide (a ≠ t) && decide (a ∉ seen)) =
      b.filter (fun x => decide (x ∉ t :: seen)) := by
  apply List.filter_congr
  intro x _
  by_cases hxt : x = t
  · subst hxt; simp
  · by_cases hxs : x ∈ seen
    · simp [hxt, hxs]
    · simp [hxt, hxs]

theorem innerLoop_snd : ∀ (ts seen todos : List String),
    (innerLoop seen todos ts).2 =
      todos ++ firstDedup (ts.filter (fun x => decide (x ∉ seen))) := by
  intro ts
  induction ts with
  | nil => intro seen todos; simp [innerLoop, firstDedup_nil]
  | cons t ts ih =>
    intro seen todos
    by_cases h : t ∈ seen
    · rw [innerLoop, if_pos h, ih]
      have hdrop : (t :: ts).filter (fun x => decide (x ∉ seen)) =
          ts.filter (fun x => decide (x ∉ seen)) := by
        simp [List.filter_cons, h]
      rw [hdrop]
    · rw [innerLoop, if_neg h, ih]
      have hkeep : (t :: ts).filter (fun x => decide (x ∉ seen)) =
          t :: ts.filter (fun x => decide (x ∉ seen)) := by
        simp [List.filter_cons, h]
      rw [hkeep, firstDedup_cons, List.filter_filter, filter_ne_and_not_mem,
        List.append_assoc, List.singleton_append]

theorem innerLoop_fst_mem : ∀ (ts seen todos : List String) (x : String),
    x ∈ (innerLoop seen todos ts).1 ↔ x ∈ seen ∨ x ∈ ts := by
  intro ts
  induction ts with
  | nil => intro seen todos x; simp [innerLoop]
  | cons t ts ih =>
    intro seen todos x
    by_cases h : t ∈ seen
    · rw [innerLoop, if_pos h, ih]
      constructor
      · rintro (hx | hx)
        · exact Or.inl hx
        · exact Or.inr (List.mem_cons_of_mem t hx)
      · rintro (hx | hx)
        · exact Or.inl hx
        · rcases List.mem_cons.mp hx with rfl | hx
          · exact Or.inl h
          · exact Or.inr hx
    · rw [innerLoop, if_neg h, ih]
      simp only [List.mem_cons]
      tauto

theorem aggLoop_ok (fs : FS) {notes : List (PyDate × String)} {itemss : List (List String)}
    (h : List.Forall₂ (fun p items => extract_undone_todos fs p.2 = .ok items) notes itemss) :
    ∀ seen todos, aggLoop fs notes seen todos =
      .ok (todos ++ firstDedup (itemss.flatten.filter (fun x => decide (x ∉ seen)))) := by
  induction h with
  | nil =>
    intro seen todos
    simp [aggLoop, firstDedup_nil]
  | cons hpi htail ih =>
    intro seen todos
    rename_i p items notes2 itemss2
    rw [aggLoop, hpi]
    dsimp only
    rw [ih, innerLoop_snd]
    have hfil : itemss2.flatten.filter (fun x => decide (x ∉ (innerLoop seen todos items).1)) =
        (itemss2.flatten.filter (fun x => decide (x ∉ seen))).filter
          (fun x => decide (x ∉ items.filter (fun x => decide (x ∉ seen)))) := by
      rw [List.filter_filter]
      apply List.filter_congr
      intro x _
      by_cases hxi : x ∈ items <;> by_cases hxs : x ∈ seen <;>
        simp [innerLoop_fst_mem, hxi, hxs, List.mem_filter]
    rw [hfil, List.flatten_cons, List.filter_append, firstDedup_append, List.append_assoc]

theorem aggLoop_ok_forall₂ (fs : FS) :
    ∀ (notes : List (PyDate × String)) (seen todos res : List String),
      aggLoop fs notes seen todos = .ok res →
      ∃ itemss, List.Forall₂
        (fun p items => extract_undone_todos fs p.2 = .ok items) notes itemss := by
  intro notes
  induction notes with
  | nil => intro seen todos res _; exact ⟨[], .nil⟩
  | cons p rest ih =>
    intro seen todos res h
    rw [aggLoop] at h
    cases hq : extract_undone_todos fs p.2 with
    | error e => rw [hq] at h; cases h
    | ok items =>
      rw [hq] at h
      dsimp only at h
      rcases ih _ _ _ h with ⟨itemss, htail⟩
      exact ⟨items :: itemss, .cons hq htail⟩

theorem aggLoop_error (fs : FS) :
    ∀ (notes : List (PyDate × String)) (seen todos : List String)
      (p : PyDate × String) (err : ReadError),
      p ∈ notes → extract_undone_todos fs p.2 = .error err →
      ∃ e, aggLoop fs notes seen todos = .error e := by
  intro notes
  induction notes with
  | nil => intro seen todos p err hp _; cases hp
  | cons q rest ih =>
    intro seen todos p err hp herr
    cases hq : extract_undone_todos fs q.2 with
    | error e => exact ⟨e, by rw [aggLoop, hq]⟩
    | ok items =>
      rcases List.mem_cons.mp hp with rfl | hp2
      · rw [herr] at hq; cases hq
      · rcases ih (innerLoop seen todos items).1 (innerLoop seen todos items).2 p err hp2 herr
          with ⟨e, he⟩
        refine ⟨e, ?_⟩
        rw [aggLoop, hq]
        exact he

theorem aggregate_todos_ok (fs : FS) {notes : List (PyDate × String)}
    {itemss : List (List String)}
    (h : List.Forall₂ (fun p items => extract_undone_todos fs p.2 = .ok items) notes itemss) :
    aggregate_todos fs notes = .ok (firstDedup itemss.flatten) := by
  unfold aggregate_todos
  rw [aggLoop_ok fs h, List.nil_append]
  have hone : (fun x : String => decide (x ∉ ([] : List String))) = fun _ => true := by
    funext x; simp
  rw [hone, List.filter_true]

/-! ### Lemmas about line splitting and todo matching -/

theorem splitlinesAux_newline (r acc : List Char) :
    splitlinesAux ('\n' :: r) acc false =
      String.mk acc.reverse :: splitlinesAux r [] false := by
  rw [splitlinesAux]
  simp [lineBreakChar]

theorem splitlinesAux_cons_safe (c : Char) (hc : lineBreakChar c = false)
    (rest acc : List Char) (flag : Bool) :
    splitlinesAux (c :: rest) acc flag = splitlinesAux rest (c :: acc) false := by
  have h1 : (flag && decide (c = '\n')) = false := by
    have hn : c ≠ '\n' := by
      intro h; rw [h] at hc; simp [lineBreakChar] at hc
    simp [hn]
  have h2 : c ≠ '\r' := by
    intro h; rw [h] at hc; simp [lineBreakChar] at hc
  rw [splitlinesAux, h1]
  simp [h2, hc]

theorem splitlinesAux_line (l : List Char) (hl : ∀ c ∈ l, lineBreakChar c = false) :
    ∀ (r acc : List Char),
      splitlinesAux (l ++ '\n' :: r) acc false =
        String.mk (acc.reverse ++ l) :: splitlinesAux r [] false := by
  induction l with
  | nil =>
    intro r acc
    rw [List.nil_append, splitlinesAux_newline, List.append_nil]
  | cons c l ih =>
    intro r acc
    have hc : lineBreakChar c = false := hl c (List.mem_cons_self c l)
    rw [List.cons_append, splitlinesAux_cons_safe c hc,
      ih (fun x hx => hl x (List.mem_cons_of_mem c hx)) r (c :: acc)]
    simp

theorem lineBreakChar_digitChar (n : Nat) : lineBreakChar (digitChar n) = false := by
  have hk : n % 10 < 10 := Nat.mod_lt _ (by omega)
  unfold digitChar
  revert hk
  generalize n % 10 = k
  intro hk
  interval_cases k <;> decide

theorem noBreak_natToChars (n : Nat) :
    ∀ c ∈ natToChars n, lineBreakChar c = false := by
  intro c hc
  unfold natToChars at hc
  split_ifs at hc
  · simp at hc; subst hc; exact lineBreakChar_digitChar _
  · simp [List.mem_cons] at hc
    rcases hc with rfl | rfl <;> exact lineBreakChar_digitChar _
  · simp [List.mem_cons] at hc
    rcases hc with rfl | rfl | rfl <;> exact lineBreakChar_digitChar _
  · simp [List.mem_cons] at hc
    rcases hc with rfl | rfl | rfl | rfl <;> exact lineBreakChar_digitChar _

theorem noBreak_pad2 (n : Nat) : ∀ c ∈ pad2 n, lineBreakChar c = false := by
  intro c hc
  unfold pad2 at hc
  split_ifs at hc
  · simp [List.mem_cons] at hc
    rcases hc with rfl | rfl
    · decide
    · exact lineBreakChar_digitChar _
  · exact noBreak_natToChars n c hc

theorem noBreak_formatDate (d : PyDate) :
    ∀ c ∈ (formatDate d).data, lineBreakChar c = false := by
  intro c hc
  have hdata : (formatDate d).data =
      natToChars d.year ++ '-' :: pad2 d.month ++ '-' :: pad2 d.day := rfl
  rw [hdata] at hc
  simp only [List.mem_append, List.mem_cons] at hc
  rcases hc with (hc | rfl | hc) | rfl | hc
  · exact noBreak_natToChars _ c hc
  · decide
  · exact noBreak_pad2 _ c hc
  · decide
  · exact noBreak_pad2 _ c hc

theorem matchTodoLine_eq_some {line t : String} :
    matchTodoLine line = some t ↔ line = "- [ ] " ++ t ∧ t ≠ "" := by
  constructor
  · intro h
    unfold matchTodoLine at h
    split at h
    · rename_i c1 c2 c3 c4 c5 c6 rest heq
      split_ifs at h with hcond
      · obtain ⟨rfl, rfl, rfl, rfl, rfl, rfl, hne⟩ := hcond
        obtain rfl := Option.some.inj h
        refine ⟨?_, ?_⟩
        · apply String.ext
          rw [heq, String.data_append]
          rfl
        · intro hteq
          exact hne (congrArg String.data hteq)
    · cases h
  · rintro ⟨rfl, ht⟩
    have hdne : t.data ≠ [] := by
      intro hnil
      exact ht (String.ext hnil)
    unfold matchTodoLine
    have hdata : ("- [ ] " ++ t).data =
        '-' :: ' ' :: '[' :: ' ' :: ']' :: ' ' :: t.data := by
      rw [String.data_append]
      rfl
    rw [hdata]
    dsimp only
    rw [if_pos ⟨rfl, rfl, rfl, rfl, rfl, rfl, hdne⟩]

theorem matchTodoLine_head_none (c : Char) (l : List Char) (hc : c ≠ '-') :
    matchTodoLine (String.mk (c :: l)) = none := by
  unfold matchTodoLine
  split
  · rename_i c1 c2 c3 c4 c5 c6 rest heq
    have hmk : c :: l = c1 :: c2 :: c3 :: c4 :: c5 :: c6 :: rest := heq
    injection hmk with h1 _
    rw [if_neg]
    rintro ⟨hd, _⟩
    exact hc (h1.trans hd)
  · rfl

theorem matchTodoLine_completed (t : String) : matchTodoLine ("- [x] " ++ t) = none := by
  unfold matchTodoLine
  have hdata : ("- [x] " ++ t).data =
      '-' :: ' ' :: '[' :: 'x' :: ']' :: ' ' :: t.data := by
    rw [String.data_append]
    rfl
  rw [hdata]
  dsimp only
  rw [if_neg]
  rintro ⟨_, _, _, h4, _⟩
  exact absurd h4 (by decide)

theorem matchTodoLine_leading_space (s : String) : matchTodoLine (" " ++ s) = none := by
  have hrepr : (" " ++ s) = String.mk (' ' :: s.data) := by
    apply String.ext
    rw [String.data_append]
    rfl
  rw [hrepr]
  exact matchTodoLine_head_none ' ' s.data (by decide)

theorem todoLine_data (t : String) :
    (todoLine t).data = ('-' :: ' ' :: '[' :: ' ' :: ']' :: ' ' :: t.data) ++ ['\n'] := by
  unfold todoLine
  rw [String.data_append, String.data_append]
  rfl

theorem mkTaskLine (t : String) :
    String.mk ('-' :: ' ' :: '[' :: ' ' :: ']' :: ' ' :: t.data) = "- [ ] " ++ t := by
  apply String.ext
  rw [String.data_append]
  rfl

theorem safeTaskLineChars (t : String) (h : ∀ c ∈ t.data, lineBreakChar c = false) :
    ∀ c ∈ ('-' :: ' ' :: '[' :: ' ' :: ']' :: ' ' :: t.data), lineBreakChar c = false := by
  intro c hc
  simp only [List.mem_cons] at hc
  rcases hc with rfl | rfl | rfl | rfl | rfl | rfl | hc
  · decide
  · decide
  · decide
  · decide
  · decide
  · decide
  · exact h c hc

theorem splitlinesAux_concatTodoLines (todos : List String)
    (h : ∀ t ∈ todos, ∀ c ∈ t.data, lineBreakChar c = false) :
    ∀ r : List Char,
      splitlinesAux ((concatStrings (todos.map todoLine)).data ++ r) [] false =
        todos.map (fun t => "- [ ] " ++ t) ++ splitlinesAux r [] false := by
  induction todos with
  | nil => intro r; simp [concatStrings]
  | cons t ts ih =>
    intro r
    have hsafe := safeTaskLineChars t (h t (List.mem_cons_self t ts))
    rw [List.map_cons, concatStrings, String.data_append, todoLine_data,
      List.append_assoc, List.append_assoc, List.singleton_append,
      splitlinesAux_line _ hsafe,
      ih (fun x hx => h x (List.mem_cons_of_mem t hx))]
    simp [mkTaskLine]

theorem splitlinesAux_tasksBlock (todos : List String)
    (h : ∀ t ∈ todos, ∀ c ∈ t.data, lineBreakChar c = false) (r : List Char) :
    splitlinesAux ((tasksBlock todos).data ++ r) [] false =
      taskLines todos ++ splitlinesAux r [] false := by
  unfold tasksBlock taskLines
  by_cases he : todos.isEmpty
  · rw [if_pos he, if_pos he]
    have hshape : ("- [ ] \n" : String).data ++ r =
        ('-' :: ' ' :: '[' :: ' ' :: ']' :: ' ' :: []) ++ '\n' :: r := rfl
    rw [hshape, splitlinesAux_line _ (by decide)]
    have e1 : String.mk (List.reverse ([] : List Char) ++
        ('-' :: ' ' :: '[' :: ' ' :: ']' :: ' ' :: [])) = "- [ ] " := rfl
    rw [e1]
    rfl
  · rw [if_neg he, if_neg he]
    exact splitlinesAux_concatTodoLines todos h r

theorem pySplitlines_renderBody (d : PyDate) (todos : List String)
    (h : ∀ t ∈ todos, ∀ c ∈ t.data, lineBreakChar c = false) :
    pySplitlines (renderBody d todos) =
      ("# " ++ formatDate d) :: "" :: "## Tasks" ::
        (taskLines todos ++ ["", "## Notes", "- "]) := by
  unfold pySplitlines
  have hdata : (renderBody d todos).data =
      ('#' :: ' ' :: (formatDate d).data) ++ '\n' :: '\n' ::
        (['#', '#', ' ', 'T', 'a', 's', 'k', 's'] ++ '\n' ::
          ((tasksBlock todos).data ++ '\n' ::
            (['#', '#', ' ', 'N', 'o', 't', 'e', 's'] ++
              '\n' :: '-' :: ' ' :: '\n' :: []))) := by
    unfold renderBody
    simp only [String.data_append, List.append_assoc]
    rfl
  have hsafe1 : ∀ c ∈ ('#' :: ' ' :: (formatDate d).data), lineBreakChar c = false := by
    intro c hc
    simp only [List.mem_cons] at hc
    rcases hc with rfl | rfl | hc
    · decide
    · decide
    · exact noBreak_formatDate d c hc
  rw [hdata, splitlinesAux_line _ hsafe1]
  have h2 : splitlinesAux
      ('\n' ::
        (['#', '#', ' ', 'T', 'a', 's', 'k', 's'] ++ '\n' ::
          ((tasksBlock todos).data ++ '\n' ::
            (['#', '#', ' ', 'N', 'o', 't', 'e', 's'] ++
              '\n' :: '-' :: ' ' :: '\n' :: [])))) [] false =
      "" :: "## Tasks" :: (taskLines todos ++ ["", "## Notes", "- "]) := by
    rw [splitlinesAux_newline, splitlinesAux_line _ (by decide),
      splitlinesAux_tasksBlock todos h, splitlinesAux_newline,
      splitlinesAux_line _ (by decide)]
    have hshape : ('-' :: ' ' :: '\n' :: ([] : List Char)) =
        ['-', ' '] ++ '\n' :: [] := rfl
    rw [hshape, splitlinesAux_line _ (by decide)]
    have e1 : String.mk (List.reverse ([] : List Char)) = "" := rfl
    have e2 : String.mk (List.reverse ([] : List Char) ++
        ['#', '#', ' ', 'T', 'a', 's', 'k', 's']) = "## Tasks" := rfl
    have e3 : String.mk (List.reverse ([] : List Char) ++
        ['#', '#', ' ', 'N', 'o', 't', 'e', 's']) = "## Notes" := rfl
    have e4 : String.mk (List.reverse ([] : List Char) ++ ['-', ' ']) = "- " := rfl
    have e5 : splitlinesAux [] [] false = [] := rfl
    simp only [e1, e2, e3, e4, e5]
  rw [h2]
  have hhead : String.mk (List.reverse ([] : List Char) ++
      ('#' :: ' ' :: (formatDate d).data)) = "# " ++ formatDate d := by
    apply String.ext
    simp only [List.reverse_nil, List.nil_append, String.data_append]
    rfl
  rw [hhead]

theorem matchTodoLine_heading (d : PyDate) :
    matchTodoLine ("# " ++ formatDate d) = none := by
  have hrepr : ("# " ++ formatDate d) = String.mk ('#' :: ' ' :: (formatDate d).data) := by
    apply String.ext
    rw [String.data_append]
    rfl
  rw [hrepr]
  exact matchTodoLine_head_none '#' _ (by decide)

theorem filterMap_todoMap (todos : List String) (h : ∀ t ∈ todos, t ≠ "") :
    List.filterMap matchTodoLine (todos.map (fun t => "- [ ] " ++ t)) = todos := by
  induction todos with
  | nil => rfl
  | cons t ts ih =>
    rw [List.map_cons, List.filterMap_cons,
      matchTodoLine_eq_some.mpr ⟨rfl, h t (List.mem_cons_self t ts)⟩,
      ih (fun x hx => h x (List.mem_cons_of_mem t hx))]

theorem filterMap_taskLines (todos : List String) (h : ∀ t ∈ todos, t ≠ "") :
    List.filterMap matchTodoLine (taskLines todos) = todos := by
  unfold taskLines
  by_cases he : todos.isEmpty
  · rw [if_pos he]
    have hnil : todos = [] := List.isEmpty_iff.mp he
    subst hnil
    decide
  · rw [if_neg he]
    exact filterMap_todoMap todos h

theorem extract_renderBody (d : PyDate) (todos : List String)
    (h : ∀ t ∈ todos, safeTodo t) :
    extractFromText (renderBody d todos) = todos := by
  unfold extractFromText
  rw [pySplitlines_renderBody d todos (fun t ht => (h t ht).2)]
  rw [List.filterMap_cons, matchTodoLine_heading d]
  rw [List.filterMap_cons]
  have hempty : matchTodoLine "" = none := rfl
  rw [hempty, List.filterMap_cons]
  have htasks : matchTodoLine "## Tasks" = none := by decide
  rw [htasks, List.filterMap_append, filterMap_taskLines todos (fun t ht => (h t ht).1)]
  have hrest : List.filterMap matchTodoLine ["", "## Notes", "- "] = [] := by decide
  rw [hrest, List.append_nil]

/-! ### Lemmas about note generation -/

theorem extract_ok {fs : FS} {name : String} {text : String}
    (h : readFile fs name = some (some text)) :
    extract_undone_todos fs name = .ok (extractFromText text) := by
  unfold extract_undone_todos
  rw [h]

theorem extract_error_decode {fs : FS} {name : String}
    (h : readFile fs name = some none) :
    extract_undone_todos fs name = .error .decodeFailed := by
  unfold extract_undone_todos
  rw [h]

theorem mem_recentNotes {notes : List (PyDate × String)} {target : PyDate}
    {p : PyDate × String} :
    p ∈ recentNotes notes target ↔
      p ∈ notes ∧ target.toordinal - 7 ≤ p.1.toordinal ∧
        p.1.toordinal < target.toordinal := by
  unfold recentNotes
  rw [List.mem_filter]
  simp only [decide_eq_true_eq]

theorem create_daily_note_exists {fs : FS} {d : PyDate}
    (h : fileExists fs (noteFilename d) = true) :
    create_daily_note fs d = .ok (none, fs) := by
  unfold create_daily_note
  rw [if_pos h]

theorem create_daily_note_created {fs : FS} {d : PyDate} {todos : List String}
    (hne : fileExists fs (noteFilename d) = false)
    (hagg : aggregate_todos fs (recentNotes (get_all_notes fs) d) = .ok todos) :
    create_daily_note fs d =
      .ok (none, fs ++ [(noteFilename d, some (renderBody d todos))]) := by
  unfold create_daily_note
  rw [if_neg (by simp [hne]), hagg]

theorem create_daily_note_error {fs : FS} {d : PyDate} {e : ReadError}
    (hne : fileExists fs (noteFilename d) = false)
    (hagg : aggregate_todos fs (recentNotes (get_all_notes fs) d) = .error e) :
    create_daily_note fs d = .error e := by
  unfold create_daily_note
  rw [if_neg (by simp [hne]), hagg]

theorem create_daily_note_ok_cases {fs : FS} {d : PyDate} {v : Option Bool} {fs2 : FS}
    (hne : fileExists fs (noteFilename d) = false)
    (h : create_daily_note fs d = .ok (v, fs2)) :
    v = none ∧ ∃ todos,
      aggregate_todos fs (recentNotes (get_all_notes fs) d) = .ok todos ∧
      fs2 = fs ++ [(noteFilename d, some (renderBody d todos))] := by
  unfold create_daily_note at h
  rw [if_neg (by simp [hne])] at h
  cases hagg : aggregate_todos fs (recentNotes (get_all_notes fs) d) with
  | error e => rw [hagg] at h; cases h
  | ok todos =>
    rw [hagg] at h
    dsimp only at h
    obtain ⟨hv, hfs⟩ := Prod.mk.injEq .. ▸ Except.ok.inj h
    exact ⟨hv.symm, todos, rfl, hfs.symm⟩

theorem fileExists_append_self (fs : FS) (name : String) (c : Option String) :
    fileExists (fs ++ [(name, c)]) name = true := by
  unfold fileExists readFile
  rw [List.find?_append]
  cases hf : fs.find? (fun e => decide (e.1 = name)) with
  | some x => simp
  | none => simp [List.find?]

/-! ### Lemmas about duplicate dates in the scan -/

theorem mdName_reconstruct {name : String} (h : isMdName name = true) :
    name = mdStem name ++ ".md" := by
  have htake : name.data.reverse.take 3 = ['d', 'm', '.'] :=
    of_decide_eq_true h
  have hrev : name.data.reverse = ['d', 'm', '.'] ++ name.data.reverse.drop 3 := by
    conv_lhs => rw [← List.take_append_drop 3 name.data.reverse]
    rw [htake]
  have hcs : name.data = (name.data.reverse.drop 3).reverse ++ ['.', 'm', 'd'] := by
    conv_lhs => rw [← List.reverse_reverse name.data]
    rw [hrev, List.reverse_append]
    rfl
  have hlen : name.data.length = (name.data.reverse.drop 3).reverse.length + 3 := by
    conv_lhs => rw [hcs]
    simp
  apply String.ext
  rw [String.data_append]
  have hstem : (mdStem name).data = name.data.take (name.data.length - 3) := rfl
  rw [hstem]
  have htk : name.data.take (name.data.length - 3) =
      (name.data.reverse.drop 3).reverse := by
    conv_lhs => rw [hcs]
    simp [List.take_left]
  rw [htk]
  conv_lhs => rw [hcs]

theorem parsed_names_sublist (fs : FS) :
    ((fs.filterMap parseEntry).map (fun p => p.2)).Sublist
      (fs.map (fun e => e.1)) := by
  induction fs with
  | nil => simp
  | cons e fs ih =>
    cases hpe : parseEntry e with
    | none =>
      rw [List.filterMap_cons, hpe, List.map_cons]
      exact ih.cons e.1
    | some p =>
      have hp2 : p.2 = e.1 := (parseEntry_eq_some.mp hpe).2.2
      rw [List.filterMap_cons, hpe, List.map_cons, List.map_cons, hp2]
      exact ih.cons₂ e.1

theorem get_all_notes_names_nodup {fs : FS}
    (h : (fs.map (fun e => e.1)).Nodup) :
    ((get_all_notes fs).map (fun p => p.2)).Nodup := by
  have hperm : ((get_all_notes fs).map (fun p => p.2)).Perm
      ((fs.filterMap parseEntry).map (fun p => p.2)) :=
    (sortLe_perm noteLe (fs.filterMap parseEntry)).map _
  exact hperm.nodup_iff.mpr ((parsed_names_sublist fs).nodup h)

/-! ### Aggregate membership -/

theorem mem_flatten_forall₂ (fs : FS) {notes : List (PyDate × String)}
    {itemss : List (List String)}
    (hf : List.Forall₂ (fun p items => extract_undone_todos fs p.2 = .ok items) notes itemss)
    (t : String) :
    t ∈ itemss.flatten ↔
      ∃ p ∈ notes, ∃ items, extract_undone_todos fs p.2 = .ok items ∧ t ∈ items := by
  induction hf with
  | nil => simp
  | cons hpi htail ih =>
    rename_i p items notes2 itemss2
    rw [List.flatten_cons, List.mem_append, ih]
    constructor
    · rintro (ht | ⟨q, hq, items2, hq2, ht⟩)
      · exact ⟨p, List.mem_cons_self p notes2, items, hpi, ht⟩
      · exact ⟨q, List.mem_cons_of_mem p hq, items2, hq2, ht⟩
    · rintro ⟨q, hq, items2, hq2, ht⟩
      rcases List.mem_cons.mp hq with rfl | hq3
      · left
        rw [hpi] at hq2
        rw [Except.ok.inj hq2]
        exact ht
      · right
        exact ⟨q, hq3, items2, hq2, ht⟩

theorem aggregate_ok_mem {fs : FS} {notes : List (PyDate × String)} {todos : List String}
    (h : aggregate_todos fs notes = .ok todos) (t : String) :
    t ∈ todos ↔
      ∃ p ∈ notes, ∃ items, extract_undone_todos fs p.2 = .ok items ∧ t ∈ items := by
  rcases aggLoop_ok_forall₂ fs notes [] [] todos h with ⟨itemss, hf⟩
  have hok := aggregate_todos_ok fs hf
  rw [h] at hok
  rw [Except.ok.inj hok, mem_firstDedup]
  exact mem_flatten_forall₂ fs hf t

theorem aggregate_ok_nodup {fs : FS} {notes : List (PyDate × String)} {todos : List String}
    (h : aggregate_todos fs notes = .ok todos) : todos.Nodup := by
  rcases aggLoop_ok_forall₂ fs notes [] [] todos h with ⟨itemss, hf⟩
  have hok := aggregate_todos_ok fs hf
  rw [h] at hok
  rw [Except.ok.inj hok]
  exact nodup_firstDedup _

/-! ### Claim theorems -/

/-- C1, counterexample: the claim says `ensureNote` returns a boolean,
`created=true` on the creating path and `created=false` on the
already-exists path. The source's `create_daily_note` returns `None` on
both paths (a bare `return` on line 77, falling off the end on line 110),
so at these concrete inputs the returned value is `none`, never
`some true` or `some false`. -/
theorem c1_counterexample :
    (create_daily_note ([] : FS) ⟨2024, 3, 10⟩).map Prod.fst ≠
      Except.ok (some true) ∧
    (create_daily_note [("2024-03-10.md", some "x")] ⟨2024, 3, 10⟩).map Prod.fst ≠
      Except.ok (some false) ∧
    (create_daily_note ([] : FS) ⟨2024, 3, 10⟩).map Prod.fst = Except.ok none ∧
    (create_daily_note [("2024-03-10.md", some "x")] ⟨2024, 3, 10⟩).map Prod.fst =
      Except.ok none := by
  refine ⟨?_, ?_, by decide, by decide⟩
  · intro h
    have := (by decide :
      (create_daily_note ([] : FS) ⟨2024, 3, 10⟩).map Prod.fst = Except.ok none)
    rw [this] at h
    cases h
  · intro h
    have := (by decide :
      (create_daily_note [("2024-03-10.md", some "x")] ⟨2024, 3, 10⟩).map Prod.fst =
        Except.ok none)
    rw [this] at h
    cases h

/-- C1 (amended): `create_daily_note` reports no created flag — its Python
return value is `None` on both paths. Behaviourally it is a no-op returning
the directory unchanged when the date's file exists, and otherwise either
propagates a read error or creates exactly the date's note. -/
theorem c1_create_daily_note_returns_none (fs : FS) (d : PyDate) :
    (fileExists fs (noteFilename d) = true →
      create_daily_note fs d = .ok (none, fs)) ∧
    (fileExists fs (noteFilename d) = false →
      (∃ e, create_daily_note fs d = .error e) ∨
      ∃ todos, create_daily_note fs d =
        .ok (none, fs ++ [(noteFilename d, some (renderBody d todos))])) := by
  constructor
  · exact create_daily_note_exists
  · intro h
    cases hagg : aggregate_todos fs (recentNotes (get_all_notes fs) d) with
    | error e => exact Or.inl ⟨e, create_daily_note_error h hagg⟩
    | ok todos => exact Or.inr ⟨todos, create_daily_note_created h hagg⟩

/-- Witness for C1's amended theorem at a directory already holding the
note for 2024-03-10. -/
theorem c1_witness :
    create_daily_note [("2024-03-10.md", some "x")] ⟨2024, 3, 10⟩ =
      .ok (none, [("2024-03-10.md", some "x")]) :=
  (c1_create_daily_note_returns_none [("2024-03-10.md", some "x")]
    ⟨2024, 3, 10⟩).1 (by decide)

/-- C2: when the date's file already exists `create_daily_note` leaves the
directory exactly as it was (no write: the returned state is `fs` itself,
so the existing file's content and every other file are unchanged; the
directory scan is read-only and leaves no trace in the state), and after a
successful creating call, a second call for the same date is such a no-op,
leaving the file content identical to what the first call wrote. -/
theorem c2_idempotent (fs : FS) (d : PyDate) :
    (fileExists fs (noteFilename d) = true →
      create_daily_note fs d = .ok (none, fs)) ∧
    (∀ v fs2, fileExists fs (noteFilename d) = false →
      create_daily_note fs d = .ok (v, fs2) →
      create_daily_note fs2 d = .ok (none, fs2)) := by
  constructor
  · exact create_daily_note_exists
  · intro v fs2 hne h
    obtain ⟨-, todos, -, rfl⟩ := create_daily_note_ok_cases hne h
    exact create_daily_note_exists (fileExists_append_self fs _ _)

/-- Witness for C2: the note created for 2024-03-10 in an empty directory
survives a second call unchanged. -/
theorem c2_witness :
    create_daily_note
      [("2024-03-10.md", some "# 2024-03-10\n\n## Tasks\n- [ ] \n\n## Notes\n- \n")]
      ⟨2024, 3, 10⟩ =
    .ok (none,
      [("2024-03-10.md", some "# 2024-03-10\n\n## Tasks\n- [ ] \n\n## Notes\n- \n")]) :=
  (c2_idempotent ([] : FS) ⟨2024, 3, 10⟩).2 none
    [("2024-03-10.md", some "# 2024-03-10\n\n## Tasks\n- [ ] \n\n## Notes\n- \n")]
    (by decide) (by decide)

/-- C3: the notes aggregated for a target date are exactly those whose date
lies in the half-open window `[target - 7 days, target)` (on ordinals,
`target.toordinal - 7 ≤ d < target.toordinal`): a note dated exactly
`target - 7 days` passes the filter whenever scanned, notes dated `target`
itself or `target - 8 days` never do, the aggregated todos are exactly
those extracted from window notes, and on the creating path the generated
file's Tasks section lists exactly those todos. -/
theorem c3_window (fs : FS) (target : PyDate) :
    (∀ p : PyDate × String,
      p ∈ recentNotes (get_all_notes fs) target ↔
        p ∈ get_all_notes fs ∧ target.toordinal - 7 ≤ p.1.toordinal ∧
          p.1.toordinal < target.toordinal) ∧
    (∀ p : PyDate × String, p.1.toordinal = target.toordinal - 7 →
      (p ∈ recentNotes (get_all_notes fs) target ↔ p ∈ get_all_notes fs)) ∧
    (∀ p : PyDate × String, p.1.toordinal = target.toordinal →
      p ∉ recentNotes (get_all_notes fs) target) ∧
    (∀ p : PyDate × String, p.1.toordinal = target.toordinal - 8 →
      p ∉ recentNotes (get_all_notes fs) target) ∧
    (∀ todos, aggregate_todos fs (recentNotes (get_all_notes fs) target) = .ok todos →
      ∀ t, t ∈ todos ↔
        ∃ p ∈ recentNotes (get_all_notes fs) target,
          ∃ items, extract_undone_todos fs p.2 = .ok items ∧ t ∈ items) ∧
    (∀ todos, fileExists fs (noteFilename target) = false →
      aggregate_todos fs (recentNotes (get_all_notes fs) target) = .ok todos →
      (∀ t ∈ todos, safeTodo t) →
      ∃ fs2, create_daily_note fs target = .ok (none, fs2) ∧
        readFile fs2 (noteFilename target) = some (some (renderBody target todos)) ∧
        extractFromText (renderBody target todos) = todos) := by
  refine ⟨fun p => mem_recentNotes, ?_, ?_, ?_, ?_, ?_⟩
  · intro p hp
    rw [mem_recentNotes]
    constructor
    · rintro ⟨h, -⟩; exact h
    · intro h
      refine ⟨h, ?_, ?_⟩ <;> omega
  · intro p hp hmem
    rw [mem_recentNotes] at hmem
    omega
  · intro p hp hmem
    rw [mem_recentNotes] at hmem
    omega
  · intro todos hagg t
    exact aggregate_ok_mem hagg t
  · intro todos hne hagg hsafe
    have hnone : readFile fs (noteFilename target) = none := by
      unfold fileExists at hne
      cases hr : readFile fs (noteFilename target) with
      | none => rfl
      | some x => rw [hr] at hne; cases hne
    refine ⟨fs ++ [(noteFilename target, some (renderBody target todos))],
      create_daily_note_created hne hagg, ?_, extract_renderBody target todos hsafe⟩
    exact readFile_append_self hnone

/-- Witness for C3 at the carry-over scenario: the note dated 2024-03-03
(exactly seven days before 2024-03-10) is selected into the window. -/
theorem c3_witness :
    ((⟨2024, 3, 3⟩, "2024-03-03.md") : PyDate × String) ∈
      recentNotes (get_all_notes [("2024-03-03.md", some "- [ ] buy milk")])
        ⟨2024, 3, 10⟩ :=
  ((c3_window [("2024-03-03.md", some "- [ ] buy milk")] ⟨2024, 3, 10⟩).2.1
    (⟨2024, 3, 3⟩, "2024-03-03.md") (by decide)).mpr (by decide)

/-- C4, counterexample: the stem `2024-3-5` fails the specification's exact
4-digit/2-digit/2-digit format (`specExactParse`), yet `strptime` accepts
it (one- and two-digit months and days both match `%m`/`%d`), so the file
appears in the scan result — refuting "every entry whose stem fails that
exact format ... never appears in the result". -/
theorem c4_counterexample :
    get_all_notes [("2024-3-5.md", some "")] = [(⟨2024, 3, 5⟩, "2024-3-5.md")] ∧
    specExactParse "2024-3-5" = none := by
  constructor
  · decide
  · decide

/-- C4 (amended): `get_all_notes` returns exactly the `.md` entries whose
stem parses under `strptime("%Y-%m-%d")` — exactly four year digits, a one-
or two-digit month, a one- or two-digit (optionally space-padded) day,
hyphen-separated, forming a valid calendar date — sorted ascending by
date; entries that fail to parse are skipped without failing the scan. -/
theorem c4_scan_characterization (fs : FS) (p : PyDate × String) :
    (p ∈ get_all_notes fs ↔
      ∃ c, (p.2, c) ∈ fs ∧ isMdName p.2 = true ∧
        parseDateStem (mdStem p.2) = some p.1) ∧
    (get_all_notes fs).Pairwise (fun a b => a.1.toordinal ≤ b.1.toordinal) := by
  constructor
  · rw [mem_get_all_notes]
    constructor
    · rintro ⟨e, he, hpe⟩
      obtain ⟨hmd, hparse, hp2⟩ := parseEntry_eq_some.mp hpe
      refine ⟨e.2, ?_, ?_, ?_⟩
      · rw [hp2]; exact he
      · rw [hp2]; exact hmd
      · rw [hp2]; exact hparse
    · rintro ⟨c, hc, hmd, hparse⟩
      exact ⟨(p.2, c), hc, parseEntry_eq_some.mpr ⟨hmd, hparse, rfl⟩⟩
  · exact get_all_notes_sorted fs

/-- Witness for C4's amended theorem: a valid canonical stem is scanned
while a junk name sits beside it. -/
theorem c4_witness :
    ((⟨2024, 3, 5⟩, "2024-03-05.md") : PyDate × String) ∈
      get_all_notes [("junk.md", some ""), ("2024-03-05.md", some "")] :=
  ((c4_scan_characterization [("junk.md", some ""), ("2024-03-05.md", some "")]
    (⟨2024, 3, 5⟩, "2024-03-05.md")).1).mpr
    ⟨some "", by decide, by decide, by decide⟩

/-- C5, counterexample: two distinct filenames, `2024-03-05.md` and the
non-canonical `2024-3-5.md`, both parse to 2024-03-05, and `get_all_notes`
keeps both — two entries of the result share a date, refuting "no two
entries in the result share a date" and "files whose names would duplicate
an already-seen date are excluded". -/
theorem c5_counterexample :
    get_all_notes [("2024-03-05.md", some ""), ("2024-3-5.md", some "")] =
      [(⟨2024, 3, 5⟩, "2024-03-05.md"), (⟨2024, 3, 5⟩, "2024-3-5.md")] := by
  decide

/-- C5 (amended): provided filenames are distinct and every parsed stem is
canonical (zero-padded, as the generator itself writes), no two entries of
the scan share a date: a date determines the canonical stem and hence the
filename. -/
theorem c5_unique_dates (fs : FS)
    (hnames : (fs.map (fun e => e.1)).Nodup)
    (hcanon : ∀ e ∈ fs, ∀ dt : PyDate, isMdName e.1 = true →
      parseDateStem (mdStem e.1) = some dt → mdStem e.1 = formatDate dt) :
    (get_all_notes fs).Pairwise (fun a b => a.1 ≠ b.1) := by
  have hnodup := get_all_notes_names_nodup hnames
  have hpw : (get_all_notes fs).Pairwise (fun a b => a.2 ≠ b.2) :=
    List.pairwise_map.mp hnodup
  have hname : ∀ p : PyDate × String, p ∈ get_all_notes fs →
      p.2 = formatDate p.1 ++ ".md" := by
    intro p hp
    rcases mem_get_all_notes.mp hp with ⟨e, he, hpe⟩
    obtain ⟨hmd, hparse, hp2⟩ := parseEntry_eq_some.mp hpe
    rw [hp2, mdName_reconstruct hmd, hcanon e he p.1 hmd hparse]
  refine hpw.imp_of_mem ?_
  intro a b ha hb hne heq
  apply hne
  rw [hname a ha, hname b hb, heq]

/-- Witness for C5's amended theorem on a directory of two canonical
names. -/
theorem c5_witness :
    (get_all_notes [("2024-03-05.md", some ""), ("2024-03-06.md", some "")]).Pairwise
      (fun a b => a.1 ≠ b.1) :=
  c5_unique_dates [("2024-03-05.md", some ""), ("2024-03-06.md", some "")]
    (by decide)
    (by
      intro e he dt hmd hparse
      rcases List.mem_cons.mp he with rfl | he2
      · have hp : parseDateStem (mdStem "2024-03-05.md") = some ⟨2024, 3, 5⟩ := by decide
        have hdt : dt = ⟨2024, 3, 5⟩ := by
          rw [hp] at hparse
          exact (Option.some.inj hparse).symm
        subst hdt
        decide
      · rcases List.mem_cons.mp he2 with rfl | he3
        · have hp : parseDateStem (mdStem "2024-03-06.md") = some ⟨2024, 3, 6⟩ := by decide
          have hdt : dt = ⟨2024, 3, 6⟩ := by
            rw [hp] at hparse
            exact (Option.some.inj hparse).symm
          subst hdt
          decide
        · cases he3)

/-- C6: a line is captured iff it is literally `- [ ] ` followed by a
nonempty suffix, which is returned verbatim; completed todos `- [x] ` and
lines with leading whitespace are never captured, and extraction returns
the captured suffixes of the file's lines in file order. -/
theorem c6_extract (fs : FS) (name text line t s2 : String) :
    (matchTodoLine line = some t ↔ line = "- [ ] " ++ t ∧ t ≠ "") ∧
    matchTodoLine ("- [x] " ++ s2) = none ∧
    matchTodoLine (" " ++ s2) = none ∧
    (readFile fs name = some (some text) →
      extract_undone_todos fs name =
        .ok ((pySplitlines text).filterMap matchTodoLine)) :=
  ⟨matchTodoLine_eq_some, matchTodoLine_completed s2,
    matchTodoLine_leading_space s2, extract_ok⟩

/-- Witness for C6: a note with one open and one completed todo. -/
theorem c6_witness :
    extract_undone_todos [("a.md", some "- [ ] x\n- [x] y")] "a.md" = .ok ["x"] := by
  rw [(c6_extract [("a.md", some "- [ ] x\n- [x] y")] "a.md" "- [ ] x\n- [x] y"
    "" "" "").2.2.2 (by decide)]
  decide

/-- C7: on success, aggregation returns each distinct extracted text
exactly once (`Nodup`), a text is in the result iff some note of the input
yields it, and the result equals the first-occurrence deduplication of the
concatenation of the notes' extractions in order (notes oldest-to-newest
as given, lines top-to-bottom); the empty input yields `ok []`, not an
error. -/
theorem c7_aggregate (fs : FS) (notes : List (PyDate × String)) (todos : List String) :
    (aggregate_todos fs notes = .ok todos →
      todos.Nodup ∧
      (∀ t, t ∈ todos ↔
        ∃ p ∈ notes, ∃ items, extract_undone_todos fs p.2 = .ok items ∧ t ∈ items) ∧
      ∃ itemss,
        List.Forall₂ (fun p items => extract_undone_todos fs p.2 = .ok items) notes itemss ∧
        todos = firstDedup itemss.flatten) ∧
    aggregate_todos fs [] = .ok [] := by
  constructor
  · intro h
    refine ⟨aggregate_ok_nodup h, fun t => aggregate_ok_mem h t, ?_⟩
    rcases aggLoop_ok_forall₂ fs notes [] [] todos h with ⟨itemss, hf⟩
    have hok := aggregate_todos_ok fs hf
    rw [h] at hok
    exact ⟨itemss, hf, Except.ok.inj hok⟩
  · rfl

/-- Witness for C7 on two notes with overlapping todo text. -/
theorem c7_witness : (["x", "y", "z"] : List String).Nodup :=
  ((c7_aggregate [("a.md", some "- [ ] x\n- [ ] y"), ("b.md", some "- [ ] y\n- [ ] z")]
    [(⟨2024, 1, 1⟩, "a.md"), (⟨2024, 1, 2⟩, "b.md")] ["x", "y", "z"]).1 (by decide)).1

/-- C8: a note file that exists but cannot be read/decoded makes
`extract_undone_todos` fail with a `ReadError`, and if such a note lies in
the aggregation window on the creating path, `create_daily_note` fails as
a whole with a propagated error (so no note is written) rather than
silently omitting that note's todos. -/
theorem c8_read_error (fs : FS) (target : PyDate) (p : PyDate × String) :
    (readFile fs p.2 = some none →
      extract_undone_todos fs p.2 = .error .decodeFailed) ∧
    (fileExists fs (noteFilename target) = false →
      p ∈ recentNotes (get_all_notes fs) target →
      readFile fs p.2 = some none →
      ∃ e, create_daily_note fs target = .error e) := by
  constructor
  · exact extract_error_decode
  · intro hne hp hred
    have herr := extract_error_decode hred
    rcases aggLoop_error fs (recentNotes (get_all_notes fs) target) [] []
      p .decodeFailed hp herr with ⟨e, he⟩
    exact ⟨e, create_daily_note_error hne he⟩

/-- Witness for C8: an unreadable note dated five days before the target. -/
theorem c8_witness :
    ∃ e, create_daily_note [("2024-03-05.md", none)] ⟨2024, 3, 10⟩ = .error e :=
  (c8_read_error [("2024-03-05.md", none)] ⟨2024, 3, 10⟩
    (⟨2024, 3, 5⟩, "2024-03-05.md")).2 (by decide) (by decide) (by decide)

/-- C9: on a fresh empty directory, `create_daily_note` for 2024-03-10
creates `2024-03-10.md` whose content is exactly the seven specified lines
(heading, blank, Tasks header, one empty checklist line, blank, Notes
header, one empty bullet), each newline-terminated. -/
theorem c9_empty_window :
    create_daily_note ([] : FS) ⟨2024, 3, 10⟩ =
      .ok (none, [("2024-03-10.md",
        some "# 2024-03-10\n\n## Tasks\n- [ ] \n\n## Notes\n- \n")]) ∧
    pySplitlines "# 2024-03-10\n\n## Tasks\n- [ ] \n\n## Notes\n- \n" =
      ["# 2024-03-10", "", "## Tasks", "- [ ] ", "", "## Notes", "- "] := by
  constructor
  · decide
  · decide

/-- C10: rendering then extracting round-trips: for any list of nonempty
single-line todo texts, applying the extraction rule to the body
`create_daily_note` renders for that list returns exactly that list in
order; for the empty list the placeholder `- [ ] ` line is not captured
(the pattern requires a nonempty suffix), so extraction yields `[]` and
generated placeholders never carry over. -/
theorem c10_roundtrip (d : PyDate) (todos : List String)
    (h : ∀ t ∈ todos, safeTodo t) :
    extractFromText (renderBody d todos) = todos ∧
    extractFromText (renderBody d []) = [] :=
  ⟨extract_renderBody d todos h,
    extract_renderBody d [] (by intro t ht; cases ht)⟩

/-- Witness for C10 at the carry-over todo texts. -/
theorem c10_witness :
    extractFromText (renderBody ⟨2024, 3, 10⟩ ["buy milk", "call bob"]) =
      ["buy milk", "call bob"] :=
  (c10_roundtrip ⟨2024, 3, 10⟩ ["buy milk", "call bob"] (by decide)).1

end DailyNotes
